import Mathlib

/-!
Shallow embedding of synthetic_data_engine/data_generator.py.

Modelling conventions:
- Python floats are modelled as exact rationals.  Every float literal of the
  source (0.45, 0.02, ...) becomes the corresponding rational.
- Calendar dates are modelled as proleptic ordinal day numbers (as in the
  Python date.toordinal view); datetimes are minute counts from day 0.
  The ISO string serialisations used by the source are injective images of
  these values, so equality and inequality of rows are preserved.
- The three pseudorandom streams seeded in main (the random module, the
  numpy global state, and the Faker stream) are modelled as oracle streams
  inside an explicit state RngState; each primitive draw consumes one
  stream element, so the draw order of the source is preserved.
- A raised Python exception (IndexError from random.choice on an empty
  sequence, KeyError from a pandas .loc lookup miss) is modelled as the
  computation returning none.
-/

namespace SDE

/-- Exact rational numbers with a positive denominator and without
normalisation, representing the (finite, small) Python float values of the
source exactly.  Unlike the library rationals, every operation below is
free of gcd normalisation, so closed computations reduce definitionally. -/
structure Q where
  num : ℤ
  den : ℕ
  den_pos : 0 < den
deriving DecidableEq, Repr

/-- A rational from an integer. -/
def Q.ofInt (n : ℤ) : Q := ⟨n, 1, Nat.one_pos⟩

instance (n : Nat) : OfNat Q n := ⟨Q.ofInt n⟩

instance : NatCast Q := ⟨fun n => Q.ofInt n⟩

instance : IntCast Q := ⟨Q.ofInt⟩

def Q.add (a b : Q) : Q :=
  ⟨a.num * b.den + b.num * a.den, a.den * b.den, Nat.mul_pos a.den_pos b.den_pos⟩

instance : Add Q := ⟨Q.add⟩

def Q.neg (a : Q) : Q := ⟨-a.num, a.den, a.den_pos⟩

instance : Neg Q := ⟨Q.neg⟩

def Q.sub (a b : Q) : Q :=
  ⟨a.num * b.den - b.num * a.den, a.den * b.den, Nat.mul_pos a.den_pos b.den_pos⟩

instance : Sub Q := ⟨Q.sub⟩

def Q.mul (a b : Q) : Q :=
  ⟨a.num * b.num, a.den * b.den, Nat.mul_pos a.den_pos b.den_pos⟩

instance : Mul Q := ⟨Q.mul⟩

def Q.div (a b : Q) : Q :=
  if h : 0 < b.num then
    ⟨a.num * b.den, a.den * b.num.toNat, Nat.mul_pos a.den_pos (by omega)⟩
  else if h2 : b.num < 0 then
    ⟨-(a.num * b.den), a.den * (-b.num).toNat, Nat.mul_pos a.den_pos (by omega)⟩
  else ⟨0, 1, Nat.one_pos⟩

instance : Div Q := ⟨Q.div⟩

def Q.le (a b : Q) : Prop := a.num * b.den ≤ b.num * a.den

instance : LE Q := ⟨Q.le⟩

instance (a b : Q) : Decidable (a ≤ b) :=
  inferInstanceAs (Decidable (a.num * b.den ≤ b.num * a.den))

def Q.lt (a b : Q) : Prop := a.num * b.den < b.num * a.den

instance : LT Q := ⟨Q.lt⟩

instance (a b : Q) : Decidable (a < b) :=
  inferInstanceAs (Decidable (a.num * b.den < b.num * a.den))

/-- Python max on two float values. -/
def Q.qmax (a b : Q) : Q := if a ≤ b then b else a

/-- Floor of a rational: euclidean division of the numerator by the
positive denominator. -/
def Q.floor (q : Q) : ℤ := q.num / (q.den : ℤ)

/-- Ceiling of a rational. -/
def Q.ceil (q : Q) : ℤ := -Q.floor (-q)

/-- Fractional part, in [0, 1). -/
def Q.fract (q : Q) : Q := ⟨q.num - Q.floor q * q.den, q.den, q.den_pos⟩

/-- The rational value of a Q, for reasoning. -/
def Q.toRat (q : Q) : ℚ := (q.num : ℚ) / (q.den : ℚ)

/-- Python int() applied to a (finite) float value: truncation toward zero. -/
def pyInt (q : Q) : ℤ :=
  if (0 : Q) ≤ q then Q.floor q else Q.ceil q

/-- Python round() to the nearest integer, ties to even. -/
def pyRound (q : Q) : ℤ :=
  if Q.fract q < 1 / 2 then Q.floor q
  else if 1 / 2 < Q.fract q then Q.floor q + 1
  else if Q.floor q % 2 = 0 then Q.floor q else Q.floor q + 1

/-- Python round(x, 2): round to two decimal places. -/
def round2 (q : Q) : Q :=
  ((pyRound (q * 100) : ℤ) : Q) / 100

/-- Decimal digit characters of a natural number, most significant first,
fuel-driven so that it reduces structurally. -/
def decCharsAux : Nat → Nat → List Char
  | 0, _ => []
  | fuel + 1, n =>
    if n < 10 then [Nat.digitChar n]
    else decCharsAux fuel (n / 10) ++ [Nat.digitChar (n % 10)]

/-- Decimal representation of a natural number as a character list,
mirroring Python str(n) for natural n. -/
def decChars (n : Nat) : List Char := decCharsAux (n + 1) n

/-- Numeric value of a decimal digit character. -/
def charDigitVal (c : Char) : Nat := c.toNat - 48

/-- Value of a most-significant-first digit character list. -/
def decListVal (ds : List Char) : Nat :=
  ds.foldl (fun a c => 10 * a + charDigitVal c) 0

/-- String id with a one-character tag, mirroring Python f-strings such as
f"E{emp_num}", f"S{shift_id}", f"T{tc_id}". -/
def tagId (c : Char) (n : Nat) : String := ⟨c :: decChars n⟩

/-- Splitting a character list on the slash character, mirroring the Python
str.split of org_path.split with a slash separator. -/
def splitSlash : List Char → List (List Char)
  | [] => [[]]
  | c :: rest =>
    match splitSlash rest with
    | [] => [[]]
    | g :: gs => if c = '/' then [] :: g :: gs else (c :: g) :: gs

/-- The last segment of a slash-delimited org path:
org_path.split with a slash, indexed at -1. -/
def department_of (org_path : String) : String :=
  ⟨((splitSlash org_path.data).getLast?).getD []⟩

/-- The three pseudorandom streams seeded in main: the random module
stream, the numpy global stream (also consumed by pandas sampling), and
the Faker name stream.  Each stream is an oracle together with a cursor. -/
structure RngState where
  pyStream : Nat → Q
  pyIdx : Nat
  npStream : Nat → Q
  npIdx : Nat
  nameStream : Nat → String
  nameIdx : Nat

/-- Advance the random module stream by one draw. -/
def bumpPy (s : RngState) : RngState := { s with pyIdx := s.pyIdx + 1 }

/-- Advance the numpy stream by one draw. -/
def bumpNp (s : RngState) : RngState := { s with npIdx := s.npIdx + 1 }

/-- Advance the Faker name stream by one draw. -/
def bumpName (s : RngState) : RngState := { s with nameIdx := s.nameIdx + 1 }

/-- A generation step: it consumes pseudorandom state and either returns a
value with the advanced state or fails (a raised Python exception). -/
abbrev Gen (α : Type) : Type := RngState → Option (α × RngState)

/-- Sequencing of generation steps. -/
def bindG {α β : Type} (x : Gen α) (f : α → Gen β) : Gen β := fun s =>
  match x s with
  | some (a, s1) => f a s1
  | none => none

/-- A generation step returning a value without consuming any draw. -/
def pureG {α : Type} (a : α) : Gen α := fun s => some (a, s)

instance : Monad Gen where
  pure := pureG
  bind := bindG

/-- A failing generation step: models a raised Python exception. -/
def failG {α : Type} : Gen α := fun _ => none

/-- random.random(): a uniform draw in the unit interval, taken from the
random module stream. -/
def pyRandom : Gen Q := fun s =>
  some (Q.fract (s.pyStream s.pyIdx), bumpPy s)

/-- random.uniform(a, b) = a + (b - a) * random.random(). -/
def pyUniform (a b : Q) : Gen Q := do
  let q ← pyRandom
  pure (a + (b - a) * q)

/-- Index of a uniform draw q from the unit interval into n alternatives. -/
def unitIndex (q : Q) (n : Nat) : Nat := (Q.floor (q * (n : Q))).toNat

/-- A uniform index below n drawn from the random module stream; fails when
n = 0 (random.choice of an empty sequence raises IndexError). -/
def pyIndex (n : Nat) : Gen Nat := fun s =>
  if n = 0 then none
  else some (unitIndex (Q.fract (s.pyStream s.pyIdx)) n, bumpPy s)

/-- random.choice(xs): a uniform element of xs; raises on an empty list. -/
def pyChoice {α : Type} (xs : List α) : Gen α := do
  let i ← pyIndex xs.length
  match xs.get? i with
  | some a => pure a
  | none => failG

/-- np.random.normal(loc, scale): the draw is loc + scale * z where z is
the next element of the numpy stream, acting as the standard normal draw. -/
def npNormal (loc scale : Q) : Gen Q := fun s =>
  some (loc + scale * s.npStream s.npIdx, bumpNp s)

/-- A uniform index below n drawn from the numpy stream (pandas sampling
draws from the numpy global state); fails when n = 0. -/
def npIndex (n : Nat) : Gen Nat := fun s =>
  if n = 0 then none
  else some (unitIndex (Q.fract (s.npStream s.npIdx)) n, bumpNp s)

/-- DataFrame.sample(1): one uniform row, using the numpy stream. -/
def npSample1 {α : Type} (xs : List α) : Gen α := do
  let i ← npIndex xs.length
  match xs.get? i with
  | some a => pure a
  | none => failG

/-- DataFrame.sample(n, replace=False): n distinct uniform rows drawn one
at a time from the numpy stream. -/
def sampleWOR {α : Type} : List α → Nat → Gen (List α)
  | _, 0 => pure []
  | xs, k + 1 => do
    let i ← npIndex xs.length
    match xs.get? i with
    | some a => do
      let rest ← sampleWOR (xs.eraseIdx i) k
      pure (a :: rest)
    | none => failG

/-- fake.name(): the next element of the Faker name stream. -/
def fakeName : Gen String := fun s =>
  some (s.nameStream s.nameIdx, bumpName s)

/-- A job catalog entry: keys job_code, job_title, job_family. -/
structure Job where
  job_code : String
  job_title : String
  job_family : String
deriving DecidableEq, Repr

/-- The configuration dataclass.  The jobs mapping is an association list
from department name to its job list (iteration order is irrelevant: it is
only read through lookup). -/
structure Config where
  seed : Nat
  days : Nat
  orgs : List String
  jobs : List (String × List Job)
  paycodes : List String

/-- A row of the employees table. -/
structure Employee where
  employee_id : String
  employee_number : Nat
  employee_name : String
  org_path : String
  department : String
  job_code : String
  job_title : String
  job_family : String
  employment_status : String
  home_org_path : String
  hourly_rate : Q
deriving DecidableEq, Repr

/-- A row of the schedule table.  schedule_date is the ordinal day,
shift_start and shift_end are minute timestamps. -/
structure ShiftRow where
  schedule_date : Nat
  shift_id : String
  employee_id : Option String
  org_path : String
  job_code : String
  shift_start : ℤ
  shift_end : ℤ
  shift_bucket : String
  is_open_shift : Bool
  scheduled_hours : Q
deriving DecidableEq, Repr

/-- A row of the timecards table.  employee_id is copied from the
schedule row for filled shifts, so it is nullable like there (the lookup
failure on a null id aborts generation before such a row is emitted). -/
structure TimecardRow where
  timecard_entry_id : String
  employee_id : Option String
  work_date : Nat
  org_path : String
  home_org_path : String
  job_code : String
  clock_in : ℤ
  clock_out : ℤ
  worked_hours : Q
  paycode : String
  scheduled_shift_id : Option String
deriving DecidableEq, Repr

/-- Python max on two integers, written so that it reduces
definitionally. -/
def maxI (a b : ℤ) : ℤ := if a ≤ b then b else a

/-- shift_bucket_from_start of the source: DAY on [6,14), EVENING on
[14,22), NIGHT otherwise. -/
def shift_bucket_from_start (start_hour : Nat) : String :=
  if 6 ≤ start_hour ∧ start_hour < 14 then "DAY"
  else if 14 ≤ start_hour ∧ start_hour < 22 then "EVENING"
  else "NIGHT"

/-- day.weekday() with Monday = 0, on ordinal day numbers (ordinal 1 is a
Monday in the proleptic calendar). -/
def weekday (day : Nat) : Nat := (day + 6) % 7

/-- datetime(day, hour, 0, 0) as a minute timestamp. -/
def dtm (day : Nat) (hour : Nat) : ℤ := ((day * 1440 + hour * 60 : Nat) : ℤ)

/-- The hour component of a (nonnegative) minute timestamp. -/
def startHourOf (t : ℤ) : Nat := t.toNat / 60 % 24

/-- The synthetic generic fallback job used by generate_employees when the
department has no catalog entry. -/
def genericJob (dept : String) : Job :=
  { job_code := "GEN", job_title := "General Staff", job_family := dept }

/-- The job selection of line 53: random.choice(dept_jobs) if dept_jobs
else the generic fallback job. -/
def jobDraw (dept : String) (dept_jobs : List Job) : Gen Job :=
  match dept_jobs with
  | [] => pure (genericJob dept)
  | _ :: _ => pyChoice dept_jobs

/-- The hourly rate draw of line 69: uniform on [18,55] for Nursing and on
[15,35] otherwise. -/
def rateDraw (dept : String) : Gen Q :=
  if dept = "Nursing" then pyUniform 18 55 else pyUniform 15 35

/-- One employee row of generate_employees: job selection, then the row
dictionary whose fields draw the name, the employment status, and the
hourly rate, in source order. -/
def genEmpRow (org_path dept : String) (dept_jobs : List Job)
    (emp_num : Nat) : Gen Employee := do
  let job ← jobDraw dept dept_jobs
  let name ← fakeName
  let status ← pyChoice ["FT", "PT", "PRN"]
  let rate ← rateDraw dept
  pure
    { employee_id := tagId 'E' emp_num
      employee_number := emp_num
      employee_name := name
      org_path := org_path
      department := dept
      job_code := job.job_code
      job_title := job.job_title
      job_family := job.job_family
      employment_status := status
      home_org_path := org_path
      hourly_rate := round2 rate }

/-- The inner employee loop: n rows for one org path, with consecutive
employee numbers from emp_num. -/
def genEmpN (org_path dept : String) (dept_jobs : List Job) :
    Nat → Nat → Gen (List Employee)
  | 0, _ => pure []
  | n + 1, emp_num => do
    let e ← genEmpRow org_path dept dept_jobs emp_num
    let rest ← genEmpN org_path dept dept_jobs n (emp_num + 1)
    pure (e :: rest)

/-- The outer employee loop over the config org list. -/
def genEmpOrgs (cfg : Config) (n_per_org : Nat) :
    List String → Nat → Gen (List Employee)
  | [], _ => pure []
  | org_path :: rest, emp_num => do
    let dept := department_of org_path
    let dept_jobs := (cfg.jobs.lookup dept).getD []
    let here ← genEmpN org_path dept dept_jobs n_per_org emp_num
    let more ← genEmpOrgs cfg n_per_org rest (emp_num + n_per_org)
    pure (here ++ more)

/-- generate_employees of the source. -/
def generate_employees (cfg : Config) (n_per_org : Nat := 80) :
    Gen (List Employee) :=
  genEmpOrgs cfg n_per_org cfg.orgs 100000

/-- The start-hour alternatives per bucket (lines 101 to 106). -/
def startHours (bucket : String) : List Nat :=
  if bucket = "DAY" then [6, 7]
  else if bucket = "EVENING" then [14, 15]
  else [22, 23]

/-- Shift length in hours: 12 for Nursing, 8 otherwise. -/
def shiftLenHours (dept : String) : Nat := if dept = "Nursing" then 12 else 8

/-- One schedule row dictionary.  scheduled_hours mirrors
(end - start).total_seconds() / 3600. -/
def mkShiftRow (day : Nat) (org_path dept bucket : String)
    (start_hour : Nat) (emp_id : Option String) (job_code : String)
    (is_open : Bool) (sid : Nat) : ShiftRow :=
  { schedule_date := day
    shift_id := tagId 'S' sid
    employee_id := emp_id
    org_path := org_path
    job_code := job_code
    shift_start := dtm day start_hour
    shift_end := dtm day start_hour + 60 * shiftLenHours dept
    shift_bucket := bucket
    is_open_shift := is_open
    scheduled_hours :=
      ((dtm day start_hour + 60 * shiftLenHours dept - dtm day start_hour :
        ℤ) : Q) * 60 / 3600 }

/-- The filled-shift loop over the sampled employees (lines 108 to 123). -/
def buildFilled (day : Nat) (org_path dept bucket : String)
    (start_hour : Nat) : List Employee → Nat → List ShiftRow
  | [], _ => []
  | e :: rest, sid =>
    mkShiftRow day org_path dept bucket start_hour (some e.employee_id)
        e.job_code false sid ::
      buildFilled day org_path dept bucket start_hour rest (sid + 1)

/-- The one-element default of the open-shift job draw, modelling the
literal default dictionary list of line 133; the source default carries
only the job_code key and only that key is read. -/
def openShiftDefaultJob : Job :=
  { job_code := "GEN", job_title := "", job_family := "" }

/-- The open-shift loop (lines 125 to 140): the job code of each open
shift is a uniform choice from cfg.jobs.get(dept, [GEN-only entry]). -/
def genOpenRows (cfg : Config) (day : Nat) (org_path dept bucket : String)
    (start_hour : Nat) : Nat → Nat → Gen (List ShiftRow)
  | 0, _ => pure []
  | k + 1, sid => do
    let job ← pyChoice ((cfg.jobs.lookup dept).getD [openShiftDefaultJob])
    let rest ← genOpenRows cfg day org_path dept bucket start_hour k (sid + 1)
    pure (mkShiftRow day org_path dept bucket start_hour none job.job_code
      true sid :: rest)

/-- One (day, org, bucket) group of the schedule loop (lines 91 to 140):
needed count, open count, the empty-pool short-circuit, sampling, the
start-hour draw, then filled rows followed by open rows. -/
def genBucket (cfg : Config) (emps : List Employee) (day : Nat)
    (org_path dept : String) (demand : Nat) (bucket : String) (pct : Q)
    (sid : Nat) : Gen (List ShiftRow × Nat) := do
  let needed : Nat := (pyRound ((demand : Q) * pct)).toNat
  let u ← pyUniform (3 / 100) (8 / 100)
  let open_count : Nat := (pyRound ((needed : Q) * u)).toNat
  let org_emps := emps.filter (fun e => e.org_path == org_path)
  if org_emps.isEmpty then
    pure ([], sid)
  else do
    let scheduled_count : Nat := needed - open_count
    let chosen ← sampleWOR org_emps (min scheduled_count org_emps.length)
    let start_hour ← pyChoice (startHours bucket)
    let filled := buildFilled day org_path dept bucket start_hour chosen sid
    let opens ← genOpenRows cfg day org_path dept bucket start_hour
      open_count (sid + chosen.length)
    pure (filled ++ opens, sid + chosen.length + open_count)

/-- The loop over the three buckets with their fixed proportions. -/
def genBuckets (cfg : Config) (emps : List Employee) (day : Nat)
    (org_path dept : String) (demand : Nat) :
    List (String × Q) → Nat → Gen (List ShiftRow × Nat)
  | [], sid => pure ([], sid)
  | (bucket, pct) :: rest, sid => do
    let (rows1, sid1) ← genBucket cfg emps day org_path dept demand bucket
      pct sid
    let (rows2, sid2) ← genBuckets cfg emps day org_path dept demand rest sid1
    pure (rows1 ++ rows2, sid2)

/-- One (day, org) step: department, demand baseline with the HR weekend
override, the normal demand draw clamped at zero, then the buckets. -/
def genOrg (cfg : Config) (emps : List Employee) (day : Nat)
    (org_path : String) (sid : Nat) : Gen (List ShiftRow × Nat) := do
  let dept := department_of org_path
  let base : Nat :=
    if dept = "Nursing" then 55 else if dept = "EVS" then 22 else 10
  let base : Nat := if dept = "HR" ∧ 5 ≤ weekday day then 3 else base
  let z ← npNormal (base : Q) 3
  let demand : Nat := (maxI 0 (pyInt z)).toNat
  genBuckets cfg emps day org_path dept demand
    [("DAY", 45 / 100), ("EVENING", 35 / 100), ("NIGHT", 20 / 100)] sid

/-- The loop over org paths for one day. -/
def genOrgsSched (cfg : Config) (emps : List Employee) (day : Nat) :
    List String → Nat → Gen (List ShiftRow × Nat)
  | [], sid => pure ([], sid)
  | org_path :: rest, sid => do
    let (rows1, sid1) ← genOrg cfg emps day org_path sid
    let (rows2, sid2) ← genOrgsSched cfg emps day rest sid1
    pure (rows1 ++ rows2, sid2)

/-- The loop over the day offsets 0, 1, ..., days - 1. -/
def genDaysAux (cfg : Config) (emps : List Employee) (start_date : Nat) :
    List Nat → Nat → Gen (List ShiftRow × Nat)
  | [], sid => pure ([], sid)
  | d :: rest, sid => do
    let (rows1, sid1) ← genOrgsSched cfg emps (start_date + d) cfg.orgs sid
    let (rows2, sid2) ← genDaysAux cfg emps start_date rest sid1
    pure (rows1 ++ rows2, sid2)

/-- generate_schedule of the source. -/
def generate_schedule (cfg : Config) (employees : List Employee)
    (start_date : Nat) : Gen (List ShiftRow) := do
  let (rows, _) ← genDaysAux cfg employees start_date
    (List.range cfg.days) 500000
  pure rows

/-- The paycode policy of the timecard loop (lines 167 to 173), with the
draw consumption of the Python and / elif short-circuiting. -/
def drawPaycode (dept : String) (worked_hours : Q) : Gen String :=
  if dept = "Nursing" ∧ 12 < worked_hours then pure "OT"
  else if dept = "Nursing" then do
    let r ← pyRandom
    if r < 18 / 100 then pyChoice ["REG", "OT", "CALL"] else pure "REG"
  else do
    let r ← pyRandom
    if r < 8 / 100 then pure "OT" else pure "REG"

/-- The home org lookup of line 180: employees.set_index at employee_id
followed by .loc, i.e. the home_org_path of the first roster row with the
given id; a KeyError (failure) when the id is missing or null. -/
def lookupHome (employees : List Employee) (eid : Option String) :
    Gen String :=
  match eid with
  | none => failG
  | some eid2 =>
    match employees.find? (fun e => e.employee_id == eid2) with
    | none => failG
    | some e => pure e.home_org_path

/-- The per filled-shift timecard loop (lines 154 to 188). -/
def tcFilledRows (employees : List Employee) :
    List ShiftRow → Nat → Gen (List TimecardRow)
  | [], _ => pure []
  | s :: rest, tc => do
    let dept := department_of s.org_path
    let lateQ ← npNormal 4 6
    let earlyQ ← npNormal 3 8
    let late_minutes : ℤ := pyInt lateQ
    let early_out_minutes : ℤ := pyInt earlyQ
    let clock_in : ℤ := s.shift_start + maxI (-15) late_minutes
    let clock_out : ℤ := s.shift_end - maxI (-30) early_out_minutes
    let worked_hours : Q := Q.qmax 0 (((clock_out - clock_in : ℤ) : Q) * 60 / 3600)
    let paycode ← drawPaycode dept worked_hours
    let home ← lookupHome employees s.employee_id
    let rest2 ← tcFilledRows employees rest (tc + 1)
    pure
      ({ timecard_entry_id := tagId 'T' tc
         employee_id := s.employee_id
         work_date := s.schedule_date
         org_path := s.org_path
         home_org_path := home
         job_code := s.job_code
         clock_in := clock_in
         clock_out := clock_out
         worked_hours := round2 worked_hours
         paycode := paycode
         scheduled_shift_id := some s.shift_id } :: rest2)

/-- The exception-entry loop (lines 190 to 209). -/
def tcExceptionRows (employees : List Employee)
    (scheduled_assigned : List ShiftRow) :
    Nat → Nat → Gen (List TimecardRow)
  | 0, _ => pure []
  | k + 1, tc => do
    let e ← npSample1 employees
    let srow ← npSample1 scheduled_assigned
    let day := srow.schedule_date
    let start_hour ← pyChoice [5, 9, 13, 17, 21]
    let start : ℤ := dtm day start_hour
    let durHours ← pyChoice [4, 6, 8]
    let endT : ℤ := start + 60 * (durHours : Nat)
    let paycode ← pyChoice ["REG", "OT", "CALL"]
    let rest ← tcExceptionRows employees scheduled_assigned k (tc + 1)
    pure
      ({ timecard_entry_id := tagId 'T' tc
         employee_id := some e.employee_id
         work_date := day
         org_path := e.org_path
         home_org_path := e.home_org_path
         job_code := e.job_code
         clock_in := start
         clock_out := endT
         worked_hours := round2 (((endT - start : ℤ) : Q) * 60 / 3600)
         paycode := paycode
         scheduled_shift_id := none } :: rest)

/-- generate_timecards of the source.  The cfg argument is unused there,
as in the source signature. -/
def generate_timecards (_cfg : Config) (employees : List Employee)
    (schedule : List ShiftRow) : Gen (List TimecardRow) := do
  let scheduled_assigned := schedule.filter (fun r => r.is_open_shift == false)
  let rows1 ← tcFilledRows employees scheduled_assigned 900000
  let nExc : Nat :=
    (pyInt ((scheduled_assigned.length : Q) * (2 / 100))).toNat
  let rows2 ← tcExceptionRows employees scheduled_assigned nExc
    (900000 + scheduled_assigned.length)
  pure (rows1 ++ rows2)

/-- The generation pipeline of main after seeding: the start date is
utcnow().date() minus cfg.days, employees with n_per_org = 70, then the
schedule and the timecards.  today is the current UTC ordinal date. -/
def runPipeline (cfg : Config) (today : Nat) :
    Gen (List Employee × List ShiftRow × List TimecardRow) := do
  let start_date := today - cfg.days
  let employees ← generate_employees cfg 70
  let schedule ← generate_schedule cfg employees start_date
  let timecards ← generate_timecards cfg employees schedule
  pure (employees, schedule, timecards)

/-- main of the source as a function of the seeding map (what
random.seed, np.random.seed and Faker.seed produce from the configured
seed), the configuration, and the current UTC date; it returns the three
output tables. -/
def runMain (seedStreams : Nat → RngState) (cfg : Config) (today : Nat) :
    Option (List Employee × List ShiftRow × List TimecardRow) :=
  (runPipeline cfg today (seedStreams cfg.seed)).map (fun p => p.1)

/-- The row invariant of generate_schedule rows: open shifts carry no
employee and a job code from the department catalog (with the GEN
default), filled shifts carry an employee of the roster from the same org
path, the bucket matches the start hour, and scheduled hours are
nonnegative. -/
def schedRowOk (cfg : Config) (emps : List Employee) (r : ShiftRow) : Prop :=
  (r.is_open_shift = true → r.employee_id = none) ∧
  (r.is_open_shift = false →
    ∃ e, e ∈ emps ∧ r.employee_id = some e.employee_id ∧
      e.org_path = r.org_path ∧ r.job_code = e.job_code) ∧
  r.shift_bucket = shift_bucket_from_start (startHourOf r.shift_start) ∧
  (0 : Q) ≤ r.scheduled_hours ∧
  (r.is_open_shift = true →
    r.job_code ∈
      (((cfg.jobs.lookup (department_of r.org_path)).getD
        [openShiftDefaultJob]).map Job.job_code))

/-- A zero oracle stream for concrete runs. -/
def zeroStream : Nat → Q := fun _ => 0

/-- A concrete seeded state with zero streams. -/
def rngW : RngState :=
  { pyStream := zeroStream, pyIdx := 0, npStream := zeroStream, npIdx := 0,
    nameStream := fun _ => "Pat", nameIdx := 0 }

/-- A concrete seeded state whose random module stream sits at 9 / 10,
which makes the open-shift ratio draw large enough to produce an open
shift. -/
def rng9 : RngState :=
  { pyStream := fun _ => 9 / 10, pyIdx := 0, npStream := zeroStream,
    npIdx := 0, nameStream := fun _ => "Pat", nameIdx := 0 }

/-- A one-org Nursing configuration. -/
def cfgW : Config :=
  { seed := 42, days := 1, orgs := ["H/Nursing"],
    jobs := [("Nursing", [⟨"RN", "Registered Nurse", "Clinical"⟩])],
    paycodes := ["REG", "OT", "CALL"] }

/-- Two concrete Nursing roster rows. -/
def empW1 : Employee :=
  { employee_id := "E100000", employee_number := 100000,
    employee_name := "Pat", org_path := "H/Nursing",
    department := "Nursing", job_code := "RN",
    job_title := "Registered Nurse", job_family := "Clinical",
    employment_status := "FT", home_org_path := "H/Nursing",
    hourly_rate := 20 }

def empW2 : Employee :=
  { employee_id := "E100001", employee_number := 100001,
    employee_name := "Sam", org_path := "H/Nursing",
    department := "Nursing", job_code := "RN",
    job_title := "Registered Nurse", job_family := "Clinical",
    employment_status := "FT", home_org_path := "H/Nursing",
    hourly_rate := 21 }

def empsW : List Employee := [empW1, empW2]

/-- A configuration whose EVS department is present in the catalog with an
empty job list. -/
def cfgE : Config :=
  { seed := 42, days := 1, orgs := ["H/EVS"], jobs := [("EVS", [])],
    paycodes := ["REG"] }

/-- The same configuration with a nonempty EVS job list. -/
def cfgEok : Config :=
  { seed := 42, days := 1, orgs := ["H/EVS"],
    jobs := [("EVS", [⟨"HK", "Housekeeper", "Support"⟩])],
    paycodes := ["REG"] }

/-- A concrete EVS roster row. -/
def empE : Employee :=
  { employee_id := "E1", employee_number := 1, employee_name := "Pat",
    org_path := "H/EVS", department := "EVS", job_code := "GEN",
    job_title := "General Staff", job_family := "EVS",
    employment_status := "FT", home_org_path := "H/EVS",
    hourly_rate := 20 }

/-- A configuration with a department absent from the job catalog. -/
def cfgX : Config :=
  { seed := 42, days := 1, orgs := ["H/X"], jobs := [], paycodes := ["REG"] }

/-- A concrete seeding map: every seed yields the zero-stream state. -/
def seedW : Nat → RngState := fun _ => rngW

/-- A concrete filled shift for feeding generate_timecards directly. -/
def shiftW : ShiftRow :=
  { schedule_date := 736999, shift_id := "S1", employee_id := some "E1",
    org_path := "H/EVS", job_code := "GEN",
    shift_start := dtm 736999 6, shift_end := dtm 736999 6 + 60 * 8,
    shift_bucket := "DAY", is_open_shift := false, scheduled_hours := 8 }

/-- A concrete open shift. -/
def shiftOpenW : ShiftRow :=
  { schedule_date := 736999, shift_id := "S2", employee_id := none,
    org_path := "H/EVS", job_code := "GEN",
    shift_start := dtm 736999 6, shift_end := dtm 736999 6 + 60 * 8,
    shift_bucket := "DAY", is_open_shift := true, scheduled_hours := 8 }

/-- The concrete pipeline run for the C9 witness. -/
def pipeEmps : List Employee × RngState :=
  (generate_employees cfgX 1 rngW).get (by decide)

def pipeSched : List ShiftRow × RngState :=
  (generate_schedule cfgX pipeEmps.1 736999 pipeEmps.2).get (by decide)

def pipeTc : List TimecardRow × RngState :=
  (generate_timecards cfgX pipeEmps.1 pipeSched.1 pipeSched.2).get
    (by decide)

@[simp] theorem pureG_eq_some {α : Type} {a : α} {s : RngState}
    {p : α × RngState} : (pure a : Gen α) s = some p ↔ p = (a, s) := by
  constructor
  · intro h
    exact (Option.some_inj.1 h).symm
  · intro h
    simp [pureG, Pure.pure, h]

@[simp] theorem bindG_eq_some {α β : Type} {x : Gen α} {f : α → Gen β}
    {s : RngState} {p : β × RngState} :
    (x >>= f) s = some p ↔ ∃ a s1, x s = some (a, s1) ∧ f a s1 = some p := by
  show bindG x f s = some p ↔ _
  cases hx : x s with
  | none => simp [bindG, hx]
  | some q =>
    cases q with
    | mk a s1 =>
      simp only [bindG, hx]
      constructor
      · intro h
        exact ⟨a, s1, rfl, h⟩
      · intro ⟨a2, s2, hq, h⟩
        have h1 : a = a2 := (Prod.mk.injEq .. ▸ Option.some_inj.1 hq).1
        have h2 : s1 = s2 := (Prod.mk.injEq .. ▸ Option.some_inj.1 hq).2
        rw [h1, h2]
        exact h

@[simp] theorem failG_eq_some {α : Type} {s : RngState} {p : α × RngState} :
    (failG : Gen α) s ≠ some p := by
  simp [failG]

@[simp] theorem pyRandom_eq_some {s : RngState} {p : Q × RngState} :
    pyRandom s = some p ↔ p = (Q.fract (s.pyStream s.pyIdx), bumpPy s) := by
  constructor
  · intro h; exact (Option.some_inj.1 h).symm
  · intro h; simp [pyRandom, h]

@[simp] theorem npNormal_eq_some {loc scale : Q} {s : RngState}
    {p : Q × RngState} :
    npNormal loc scale s = some p ↔
      p = (loc + scale * s.npStream s.npIdx, bumpNp s) := by
  constructor
  · intro h; exact (Option.some_inj.1 h).symm
  · intro h; simp [npNormal, h]

@[simp] theorem fakeName_eq_some {s : RngState} {p : String × RngState} :
    fakeName s = some p ↔ p = (s.nameStream s.nameIdx, bumpName s) := by
  constructor
  · intro h; exact (Option.some_inj.1 h).symm
  · intro h; simp [fakeName, h]

@[simp] theorem pyIndex_eq_some {n : Nat} {s : RngState}
    {p : Nat × RngState} :
    pyIndex n s = some p ↔
      0 < n ∧ p = (unitIndex (Q.fract (s.pyStream s.pyIdx)) n, bumpPy s) := by
  unfold pyIndex
  split
  · simp; omega
  · rename_i h
    constructor
    · intro hp
      exact ⟨by omega, (Option.some_inj.1 hp).symm⟩
    · intro ⟨_, hp⟩
      simp [hp]

@[simp] theorem npIndex_eq_some {n : Nat} {s : RngState}
    {p : Nat × RngState} :
    npIndex n s = some p ↔
      0 < n ∧ p = (unitIndex (Q.fract (s.npStream s.npIdx)) n, bumpNp s) := by
  unfold npIndex
  split
  · simp; omega
  · rename_i h
    constructor
    · intro hp
      exact ⟨by omega, (Option.some_inj.1 hp).symm⟩
    · intro ⟨_, hp⟩
      simp [hp]

theorem Q.den_ne_zero_rat (q : Q) : ((q.den : ℚ)) ≠ 0 := by
  have := q.den_pos
  positivity

theorem Q.toRat_le {a b : Q} : a ≤ b ↔ Q.toRat a ≤ Q.toRat b := by
  have ha : (0 : ℚ) < (a.den : ℚ) := by exact_mod_cast a.den_pos
  have hb : (0 : ℚ) < (b.den : ℚ) := by exact_mod_cast b.den_pos
  rw [Q.toRat, Q.toRat, div_le_div_iff₀ ha hb]
  constructor
  · intro h
    exact_mod_cast h
  · intro h
    exact_mod_cast h

theorem Q.toRat_lt {a b : Q} : a < b ↔ Q.toRat a < Q.toRat b := by
  have ha : (0 : ℚ) < (a.den : ℚ) := by exact_mod_cast a.den_pos
  have hb : (0 : ℚ) < (b.den : ℚ) := by exact_mod_cast b.den_pos
  rw [Q.toRat, Q.toRat, div_lt_div_iff₀ ha hb]
  constructor
  · intro h
    exact_mod_cast h
  · intro h
    exact_mod_cast h

theorem Q.toRat_add (a b : Q) : Q.toRat (a + b) = Q.toRat a + Q.toRat b := by
  show Q.toRat (Q.add a b) = _
  unfold Q.toRat Q.add
  have ha := Q.den_ne_zero_rat a
  have hb := Q.den_ne_zero_rat b
  field_simp

theorem Q.toRat_sub (a b : Q) : Q.toRat (a - b) = Q.toRat a - Q.toRat b := by
  show Q.toRat (Q.sub a b) = _
  unfold Q.toRat Q.sub
  have ha := Q.den_ne_zero_rat a
  have hb := Q.den_ne_zero_rat b
  field_simp
  ring

theorem Q.toRat_mul (a b : Q) : Q.toRat (a * b) = Q.toRat a * Q.toRat b := by
  show Q.toRat (Q.mul a b) = _
  unfold Q.toRat Q.mul
  have ha := Q.den_ne_zero_rat a
  have hb := Q.den_ne_zero_rat b
  field_simp

theorem Q.toRat_floor (q : Q) : Q.floor q = ⌊Q.toRat q⌋ := by
  unfold Q.floor Q.toRat
  exact (Rat.floor_intCast_div_natCast q.num q.den).symm

theorem Q.toRat_ofNat (n : Nat) : Q.toRat (no_index (OfNat.ofNat n)) = n := by
  show Q.toRat (Q.ofInt n) = _
  simp [Q.toRat, Q.ofInt]

theorem Q.le_iff_num {q : Q} : (0 : Q) ≤ q ↔ 0 ≤ q.num := by
  show Q.le (Q.ofInt 0) q ↔ _
  unfold Q.le Q.ofInt
  simp

theorem Q.fract_nonneg (q : Q) : (0 : Q) ≤ Q.fract q := by
  rw [Q.le_iff_num]
  show 0 ≤ q.num - Q.floor q * q.den
  have h1 : q.num % (q.den : ℤ) = q.num - (q.den : ℤ) * (q.num / (q.den : ℤ)) :=
    Int.emod_def q.num (q.den : ℤ)
  have h2 : 0 ≤ q.num % (q.den : ℤ) :=
    Int.emod_nonneg q.num (by exact_mod_cast Nat.pos_iff_ne_zero.1 q.den_pos)
  have h3 : q.num / (q.den : ℤ) * q.den = (q.den : ℤ) * (q.num / (q.den : ℤ)) :=
    mul_comm _ _
  unfold Q.floor
  omega

theorem Q.fract_lt_one (q : Q) : Q.fract q < 1 := by
  show Q.lt (Q.fract q) (Q.ofInt 1)
  unfold Q.lt Q.fract Q.ofInt
  simp only [mul_one, one_mul]
  have h1 : q.num % (q.den : ℤ) = q.num - (q.den : ℤ) * (q.num / (q.den : ℤ)) :=
    Int.emod_def q.num (q.den : ℤ)
  have h2 : q.num % (q.den : ℤ) < q.den :=
    Int.emod_lt_of_pos q.num (by exact_mod_cast q.den_pos)
  have h3 : q.num / (q.den : ℤ) * q.den = (q.den : ℤ) * (q.num / (q.den : ℤ)) :=
    mul_comm _ _
  unfold Q.floor
  omega

theorem Q.floor_nonneg {q : Q} (h : (0 : Q) ≤ q) : 0 ≤ Q.floor q := by
  rw [Q.le_iff_num] at h
  exact Int.ediv_nonneg h (by positivity)

theorem pyInt_nonneg {q : Q} (h : (0 : Q) ≤ q) : 0 ≤ pyInt q := by
  rw [pyInt, if_pos h]
  exact Q.floor_nonneg h

theorem pyRound_nonneg {q : Q} (h : (0 : Q) ≤ q) : 0 ≤ pyRound q := by
  have hf := Q.floor_nonneg h
  unfold pyRound
  split
  · exact hf
  · split
    · omega
    · split
      · exact hf
      · omega

theorem Q.mul_nonneg_of_nonneg_nat {q : Q} (h : (0 : Q) ≤ q) (n : Nat) :
    (0 : Q) ≤ q * (n : Q) := by
  rw [Q.le_iff_num] at h ⊢
  show 0 ≤ q.num * (Q.ofInt n).num
  unfold Q.ofInt
  simp only []
  positivity

theorem round2_nonneg {q : Q} (h : (0 : Q) ≤ q) : (0 : Q) ≤ round2 q := by
  have h100 := pyRound_nonneg (Q.mul_nonneg_of_nonneg_nat h 100)
  rw [Q.le_iff_num]
  unfold round2
  show 0 ≤ (Q.div ((pyRound (q * 100) : ℤ) : Q) 100).num
  unfold Q.div
  have hpos : (0 : ℤ) < ((100 : Q)).num := by decide
  rw [dif_pos hpos]
  show 0 ≤ (((pyRound (q * 100) : ℤ) : Q)).num * ((100 : Q)).den
  have hn : (((pyRound (q * 100) : ℤ) : Q)).num = pyRound (q * 100) := rfl
  rw [hn]
  positivity

theorem decListVal_append (xs : List Char) (c : Char) :
    decListVal (xs ++ [c]) = 10 * decListVal xs + charDigitVal c := by
  simp [decListVal, List.foldl_append]

theorem charDigitVal_digitChar {n : Nat} (h : n < 10) :
    charDigitVal (Nat.digitChar n) = n := by
  interval_cases n <;> decide

theorem decListVal_foldl_shift (xs : List Char) (a : Nat) :
    xs.foldl (fun a c => 10 * a + charDigitVal c) a =
      a * 10 ^ xs.length + decListVal xs := by
  induction xs generalizing a with
  | nil => simp [decListVal]
  | cons x xs ih =>
    simp only [List.foldl_cons, decListVal, List.length_cons]
    rw [ih, ih (0 * 10 + charDigitVal x)]
    ring

theorem decListVal_decCharsAux :
    ∀ fuel n, n < fuel → decListVal (decCharsAux fuel n) = n := by
  intro fuel
  induction fuel with
  | zero => intro n h; omega
  | succ f ih =>
    intro n h
    by_cases h10 : n < 10
    · simp [decCharsAux, h10, decListVal, charDigitVal_digitChar h10]
    · have hn0 : 0 < n := by omega
      have hdiv : n / 10 < n := Nat.div_lt_self hn0 (by omega)
      have hlt : n / 10 < f := by omega
      simp only [decCharsAux, if_neg h10]
      rw [decListVal_append, ih _ hlt,
        charDigitVal_digitChar (Nat.mod_lt _ (by omega))]
      omega

theorem decListVal_decChars (n : Nat) : decListVal (decChars n) = n :=
  decListVal_decCharsAux (n + 1) n (Nat.lt_succ_self n)

theorem decChars_injective : Function.Injective decChars := by
  intro a b h
  have := decListVal_decChars a
  rw [h, decListVal_decChars] at this
  omega

theorem tagId_right_injective {c : Char} {m n : Nat}
    (h : tagId c m = tagId c n) : m = n := by
  unfold tagId at h
  have hdata : c :: decChars m = c :: decChars n := congrArg String.data h
  exact decChars_injective (by simpa using hdata)

theorem unitIndex_lt {q : Q} (h1 : q < 1) {n : Nat}
    (hn : 0 < n) : unitIndex q n < n := by
  have hq : q.num * 1 < 1 * q.den := h1
  have hd := q.den_pos
  have hn2 : (0 : ℤ) < n := by exact_mod_cast hn
  have hlt : Q.floor (q * (n : Q)) < (n : ℤ) := by
    show (q * (n : Q)).num / ((q * (n : Q)).den : ℤ) < (n : ℤ)
    have h2 : (q * (n : Q)).num = q.num * n := rfl
    have h3 : (q * (n : Q)).den = q.den * 1 := rfl
    rw [h2, h3]
    rw [Int.ediv_lt_iff_lt_mul (by push_cast; omega)]
    push_cast
    nlinarith
  unfold unitIndex
  omega

theorem pyChoice_mem {α : Type} {xs : List α} {s : RngState} {a : α}
    {s1 : RngState} (h : pyChoice xs s = some (a, s1)) : a ∈ xs := by
  unfold pyChoice at h
  rw [bindG_eq_some] at h
  obtain ⟨i, s2, hi, hrest⟩ := h
  cases hget : xs.get? i with
  | none => rw [hget] at hrest; exact absurd hrest failG_eq_some
  | some b =>
    rw [hget] at hrest
    rw [pureG_eq_some] at hrest
    have hb : a = b := congrArg Prod.fst hrest
    exact hb ▸ List.get?_mem hget

theorem npSample1_mem {α : Type} {xs : List α} {s : RngState} {a : α}
    {s1 : RngState} (h : npSample1 xs s = some (a, s1)) : a ∈ xs := by
  unfold npSample1 at h
  rw [bindG_eq_some] at h
  obtain ⟨i, s2, hi, hrest⟩ := h
  cases hget : xs.get? i with
  | none => rw [hget] at hrest; exact absurd hrest failG_eq_some
  | some b =>
    rw [hget] at hrest
    rw [pureG_eq_some] at hrest
    have hb : a = b := congrArg Prod.fst hrest
    exact hb ▸ List.get?_mem hget

theorem sampleWOR_subset {α : Type} :
    ∀ (xs : List α) (k : Nat) {s : RngState} {ys : List α} {s1 : RngState},
      sampleWOR xs k s = some (ys, s1) → ∀ y ∈ ys, y ∈ xs := by
  intro xs k
  induction k generalizing xs with
  | zero =>
    intro s ys s1 h y hy
    unfold sampleWOR at h
    rw [pureG_eq_some] at h
    have : ys = [] := congrArg Prod.fst h
    subst this
    simp at hy
  | succ k ih =>
    intro s ys s1 h y hy
    unfold sampleWOR at h
    rw [bindG_eq_some] at h
    obtain ⟨i, s2, hi, hrest⟩ := h
    cases hget : xs.get? i with
    | none => rw [hget] at hrest; exact absurd hrest failG_eq_some
    | some a =>
      rw [hget] at hrest
      rw [bindG_eq_some] at hrest
      obtain ⟨rest, s3, hr, hp⟩ := hrest
      rw [pureG_eq_some] at hp
      have hys : ys = a :: rest := congrArg Prod.fst hp
      subst hys
      rcases List.mem_cons.1 hy with rfl | hmem
      · exact List.get?_mem hget
      · exact List.eraseIdx_subset _ _ (ih _ hr y hmem)

theorem startHourOf_dtm {day hour : Nat} (h : hour < 24) :
    startHourOf (dtm day hour) = hour := by
  unfold startHourOf dtm
  rw [Int.toNat_natCast]
  omega

theorem genEmpRow_spec {org_path dept : String} {dept_jobs : List Job}
    {emp_num : Nat} {s : RngState} {e : Employee} {s1 : RngState}
    (h : genEmpRow org_path dept dept_jobs emp_num s = some (e, s1)) :
    e.employee_number = emp_num ∧ e.org_path = org_path ∧
      e.home_org_path = org_path ∧ e.employee_id = tagId 'E' emp_num := by
  unfold genEmpRow at h
  simp only [bindG_eq_some, pureG_eq_some] at h
  obtain ⟨job, s2, hjob, name, s3, hname, status, s4, hstatus, rate, s5,
    hrate, hp⟩ := h
  have he : e = _ := congrArg Prod.fst hp
  subst he
  exact ⟨rfl, rfl, rfl, rfl⟩

theorem genEmpN_spec {org_path dept : String} {dept_jobs : List Job} :
    ∀ (n emp_num : Nat) {s : RngState} {es : List Employee} {s1 : RngState},
      genEmpN org_path dept dept_jobs n emp_num s = some (es, s1) →
      es.length = n ∧
      es.map Employee.org_path = List.replicate n org_path ∧
      (∀ k (hk : k < es.length),
        (es.get ⟨k, hk⟩).employee_number = emp_num + k ∧
        (es.get ⟨k, hk⟩).employee_id = tagId 'E' (emp_num + k)) ∧
      (∀ e ∈ es, e.home_org_path = e.org_path) := by
  intro n
  induction n with
  | zero =>
    intro emp_num s es s1 h
    unfold genEmpN at h
    rw [pureG_eq_some] at h
    have hes : es = [] := congrArg Prod.fst h
    subst hes
    refine ⟨rfl, rfl, ?_, ?_⟩
    · intro k hk; simp at hk
    · intro e he; simp at he
  | succ m ih =>
    intro emp_num s es s1 h
    unfold genEmpN at h
    simp only [bindG_eq_some, pureG_eq_some] at h
    obtain ⟨e, s2, he, rest, s3, hrest, hp⟩ := h
    have hes : es = e :: rest := congrArg Prod.fst hp
    subst hes
    obtain ⟨hnum, horg, hhome, hid⟩ := genEmpRow_spec he
    obtain ⟨hlen, hmap, hidx, hall⟩ := ih (emp_num + 1) hrest
    refine ⟨by simp [hlen], ?_, ?_, ?_⟩
    · simp only [List.map_cons, hmap, horg, List.replicate_succ]
    · intro k hk
      cases k with
      | zero => simpa using ⟨hnum, hid⟩
      | succ j =>
        have hj : j < rest.length := by simpa [hlen] using hk
        have := hidx j hj
        constructor
        · show (rest.get ⟨j, hj⟩).employee_number = emp_num + (j + 1)
          omega
        · show (rest.get ⟨j, hj⟩).employee_id = tagId 'E' (emp_num + (j + 1))
          rw [this.2]
          congr 1
          omega
    · intro x hx
      rcases List.mem_cons.1 hx with rfl | hmem
      · rw [hhome, horg]
      · exact hall x hmem

theorem genEmpOrgs_spec {cfg : Config} {n_per_org : Nat} :
    ∀ (orgs : List String) (emp_num : Nat) {s : RngState}
      {es : List Employee} {s1 : RngState},
      genEmpOrgs cfg n_per_org orgs emp_num s = some (es, s1) →
      es.length = orgs.length * n_per_org ∧
      es.map Employee.org_path =
        (orgs.map (fun o => List.replicate n_per_org o)).flatten ∧
      (∀ k (hk : k < es.length),
        (es.get ⟨k, hk⟩).employee_number = emp_num + k ∧
        (es.get ⟨k, hk⟩).employee_id = tagId 'E' (emp_num + k)) ∧
      (∀ e ∈ es, e.home_org_path = e.org_path) := by
  intro orgs
  induction orgs with
  | nil =>
    intro emp_num s es s1 h
    unfold genEmpOrgs at h
    rw [pureG_eq_some] at h
    have hes : es = [] := congrArg Prod.fst h
    subst hes
    refine ⟨by simp, rfl, ?_, ?_⟩
    · intro k hk; simp at hk
    · intro e he; simp at he
  | cons org rest ih =>
    intro emp_num s es s1 h
    unfold genEmpOrgs at h
    simp only [bindG_eq_some, pureG_eq_some] at h
    obtain ⟨here, s2, hhere, more, s3, hmore, hp⟩ := h
    have hes : es = here ++ more := congrArg Prod.fst hp
    subst hes
    obtain ⟨hlen1, hmap1, hidx1, hall1⟩ := genEmpN_spec n_per_org emp_num hhere
    obtain ⟨hlen2, hmap2, hidx2, hall2⟩ := ih (emp_num + n_per_org) hmore
    refine ⟨?_, ?_, ?_, ?_⟩
    · simp [hlen1, hlen2]
      ring
    · simp only [List.map_append, hmap1, hmap2, List.map_cons,
        List.flatten_cons]
    · intro k hk
      by_cases hcase : k < here.length
      · have hg : (here ++ more).get ⟨k, hk⟩ = here.get ⟨k, hcase⟩ :=
          List.get_append k hcase
        rw [hg]
        exact hidx1 k hcase
      · have hk2 : k - here.length < more.length := by
          have := List.length_append here more
          omega
        have hg : (here ++ more).get ⟨k, hk⟩ =
            more.get ⟨k - here.length, hk2⟩ := by
          rw [List.get_eq_getElem, List.get_eq_getElem,
            List.getElem_append_right (Nat.le_of_not_lt hcase)]
        rw [hg]
        have := hidx2 (k - here.length) hk2
        constructor
        · rw [this.1, hlen1]
          omega
        · rw [this.2, hlen1]
          congr 1
          omega
    · intro e he
      rcases List.mem_append.1 he with hmem | hmem
      · exact hall1 e hmem
      · exact hall2 e hmem

theorem generate_employees_spec {cfg : Config} {n_per_org : Nat}
    {s : RngState} {es : List Employee} {s1 : RngState}
    (h : generate_employees cfg n_per_org s = some (es, s1)) :
    es.length = cfg.orgs.length * n_per_org ∧
    es.map Employee.org_path =
      (cfg.orgs.map (fun o => List.replicate n_per_org o)).flatten ∧
    (∀ k (hk : k < es.length),
      (es.get ⟨k, hk⟩).employee_number = 100000 + k ∧
      (es.get ⟨k, hk⟩).employee_id = tagId 'E' (100000 + k)) ∧
    (∀ e ∈ es, e.home_org_path = e.org_path) :=
  genEmpOrgs_spec cfg.orgs 100000 h

theorem generate_employees_unique_ids {cfg : Config} {n_per_org : Nat}
    {s : RngState} {es : List Employee} {s1 : RngState}
    (h : generate_employees cfg n_per_org s = some (es, s1)) :
    ∀ e1 ∈ es, ∀ e2 ∈ es, e1.employee_id = e2.employee_id → e1 = e2 := by
  obtain ⟨hlen, hmap, hidx, hall⟩ := generate_employees_spec h
  intro e1 he1 e2 he2 hid
  obtain ⟨⟨k1, hk1⟩, hg1⟩ := List.mem_iff_get.1 he1
  obtain ⟨⟨k2, hk2⟩, hg2⟩ := List.mem_iff_get.1 he2
  have h1 := (hidx k1 hk1).2
  have h2 := (hidx k2 hk2).2
  rw [hg1] at h1
  rw [hg2] at h2
  have : (100000 : Nat) + k1 = 100000 + k2 :=
    tagId_right_injective (h1 ▸ h2 ▸ hid)
  have hk : k1 = k2 := by omega
  subst hk
  rw [← hg1, ← hg2]

theorem Q.qmax_nonneg (x : Q) : (0 : Q) ≤ Q.qmax 0 x := by
  unfold Q.qmax
  split
  · assumption
  · decide

/-- Nonnegativity of the hour conversion (z minutes) * 60 / 3600 for a
nonnegative z. -/
theorem Q.minutes_hours_nonneg {z : ℤ} (hz : 0 ≤ z) :
    (0 : Q) ≤ ((z : Q) * 60 / 3600) := by
  rw [Q.le_iff_num]
  show 0 ≤ (Q.div ((z : Q) * 60) 3600).num
  unfold Q.div
  rw [dif_pos (by decide : (0 : ℤ) < (3600 : Q).num)]
  show 0 ≤ z * 60 * ((3600 : Q).den : ℤ)
  have hd : ((3600 : Q).den : ℤ) = 1 := rfl
  rw [hd]
  omega

theorem startHours_spec {bucket : String}
    (hb : bucket = "DAY" ∨ bucket = "EVENING" ∨ bucket = "NIGHT")
    {h : Nat} (hmem : h ∈ startHours bucket) :
    shift_bucket_from_start h = bucket ∧ h < 24 := by
  rcases hb with rfl | rfl | rfl
  · have he : startHours "DAY" = [6, 7] := rfl
    rw [he] at hmem
    simp only [List.mem_cons, List.not_mem_nil, or_false] at hmem
    rcases hmem with rfl | rfl
    · exact ⟨by decide, by decide⟩
    · exact ⟨by decide, by decide⟩
  · have he : startHours "EVENING" = [14, 15] := rfl
    rw [he] at hmem
    simp only [List.mem_cons, List.not_mem_nil, or_false] at hmem
    rcases hmem with rfl | rfl
    · exact ⟨by decide, by decide⟩
    · exact ⟨by decide, by decide⟩
  · have he : startHours "NIGHT" = [22, 23] := rfl
    rw [he] at hmem
    simp only [List.mem_cons, List.not_mem_nil, or_false] at hmem
    rcases hmem with rfl | rfl
    · exact ⟨by decide, by decide⟩
    · exact ⟨by decide, by decide⟩

theorem mkShiftRow_scheduled_hours_nonneg
    (day : Nat) (org_path dept bucket : String) (start_hour : Nat)
    (emp_id : Option String) (job_code : String) (is_open : Bool)
    (sid : Nat) :
    (0 : Q) ≤ (mkShiftRow day org_path dept bucket start_hour emp_id
      job_code is_open sid).scheduled_hours := by
  show (0 : Q) ≤ ((dtm day start_hour + 60 * shiftLenHours dept -
    dtm day start_hour : ℤ) : Q) * 60 / 3600
  apply Q.minutes_hours_nonneg
  omega

theorem buildFilled_mem {day : Nat} {org_path dept bucket : String}
    {start_hour : Nat} :
    ∀ (chosen : List Employee) (sid : Nat) {r : ShiftRow},
      r ∈ buildFilled day org_path dept bucket start_hour chosen sid →
      ∃ e, e ∈ chosen ∧ ∃ sid2, r = mkShiftRow day org_path dept bucket
        start_hour (some e.employee_id) e.job_code false sid2 := by
  intro chosen
  induction chosen with
  | nil =>
    intro sid r hr
    simp [buildFilled] at hr
  | cons e rest ih =>
    intro sid r hr
    unfold buildFilled at hr
    rcases List.mem_cons.1 hr with rfl | hmem
    · exact ⟨e, List.mem_cons_self e rest, sid, rfl⟩
    · obtain ⟨e2, hm, sid2, hr2⟩ := ih (sid + 1) hmem
      exact ⟨e2, List.mem_cons_of_mem e hm, sid2, hr2⟩

theorem genOpenRows_mem {cfg : Config} {day : Nat}
    {org_path dept bucket : String} {start_hour : Nat} :
    ∀ (k sid : Nat) {s : RngState} {rows : List ShiftRow} {s1 : RngState},
      genOpenRows cfg day org_path dept bucket start_hour k sid s =
        some (rows, s1) →
      ∀ r ∈ rows,
        ∃ job, job ∈ (cfg.jobs.lookup dept).getD [openShiftDefaultJob] ∧
          ∃ sid2, r = mkShiftRow day org_path dept bucket start_hour none
            job.job_code true sid2 := by
  intro k
  induction k with
  | zero =>
    intro sid s rows s1 h r hr
    unfold genOpenRows at h
    rw [pureG_eq_some] at h
    have : rows = [] := congrArg Prod.fst h
    subst this
    simp at hr
  | succ m ih =>
    intro sid s rows s1 h r hr
    unfold genOpenRows at h
    simp only [bindG_eq_some, pureG_eq_some] at h
    obtain ⟨job, s2, hjob, rest, s3, hrest, hp⟩ := h
    have : rows = _ :: rest := congrArg Prod.fst hp
    subst this
    rcases List.mem_cons.1 hr with rfl | hmem
    · exact ⟨job, pyChoice_mem hjob, sid, rfl⟩
    · exact ih (sid + 1) hrest r hmem

theorem genBucket_ok {cfg : Config} {emps : List Employee} {day : Nat}
    {org_path dept : String} {demand : Nat} {bucket : String} {pct : Q}
    {sid : Nat} {s : RngState} {rows : List ShiftRow} {sid2 : Nat}
    {s1 : RngState}
    (hdept : dept = department_of org_path)
    (hb : bucket = "DAY" ∨ bucket = "EVENING" ∨ bucket = "NIGHT")
    (h : genBucket cfg emps day org_path dept demand bucket pct sid s =
      some ((rows, sid2), s1)) :
    ∀ r ∈ rows, schedRowOk cfg emps r := by
  unfold genBucket at h
  simp only [bindG_eq_some] at h
  obtain ⟨u, su, hu, hif⟩ := h
  split at hif
  · rw [pureG_eq_some] at hif
    have : rows = [] := congrArg Prod.fst (congrArg Prod.fst hif)
    subst this
    intro r hr
    simp at hr
  · simp only [bindG_eq_some, pureG_eq_some] at hif
    obtain ⟨chosen, s3, hch, start_hour, s4, hsh, opens, s5, hop, hp⟩ := hif
    have hrows : rows = buildFilled day org_path dept bucket start_hour
        chosen sid ++ opens :=
      congrArg Prod.fst (congrArg Prod.fst hp)
    subst hrows
    have hhour := pyChoice_mem hsh
    obtain ⟨hbucket, h24⟩ := startHours_spec hb hhour
    intro r hr
    rcases List.mem_append.1 hr with hmem | hmem
    · obtain ⟨e, hech, sidr, hreq⟩ := buildFilled_mem chosen sid hmem
      have heorg2 : e ∈ emps.filter (fun x => x.org_path == org_path) :=
        sampleWOR_subset _ _ hch e hech
      rw [List.mem_filter] at heorg2
      have heorg : e.org_path = org_path := by
        have := heorg2.2
        simpa using this
      subst hreq
      refine ⟨?_, ?_, ?_, ?_, ?_⟩
      · intro habs
        exact absurd habs (by simp [mkShiftRow])
      · intro _
        exact ⟨e, heorg2.1, rfl, heorg, rfl⟩
      · show bucket = shift_bucket_from_start (startHourOf
          (dtm day start_hour))
        rw [startHourOf_dtm h24, hbucket]
      · exact mkShiftRow_scheduled_hours_nonneg day org_path dept bucket
          start_hour (some e.employee_id) e.job_code false sidr
      · intro habs
        exact absurd habs (by simp [mkShiftRow])
    · obtain ⟨job, hjob, sidr, hreq⟩ := genOpenRows_mem _ _ hop r hmem
      subst hreq
      refine ⟨?_, ?_, ?_, ?_, ?_⟩
      · intro _
        rfl
      · intro habs
        exact absurd habs (by simp [mkShiftRow])
      · show bucket = shift_bucket_from_start (startHourOf
          (dtm day start_hour))
        rw [startHourOf_dtm h24, hbucket]
      · exact mkShiftRow_scheduled_hours_nonneg day org_path dept bucket
          start_hour none job.job_code true sidr
      · intro _
        show job.job_code ∈ ((cfg.jobs.lookup
          (department_of org_path)).getD [openShiftDefaultJob]).map
          Job.job_code
        rw [← hdept]
        exact List.mem_map_of_mem Job.job_code hjob

theorem genBuckets_ok {cfg : Config} {emps : List Employee} {day : Nat}
    {org_path dept : String} {demand : Nat}
    (hdept : dept = department_of org_path) :
    ∀ (bl : List (String × Q)) (sid : Nat) {s : RngState}
      {rows : List ShiftRow} {sid2 : Nat} {s1 : RngState},
      (∀ bp ∈ bl, bp.1 = "DAY" ∨ bp.1 = "EVENING" ∨ bp.1 = "NIGHT") →
      genBuckets cfg emps day org_path dept demand bl sid s =
        some ((rows, sid2), s1) →
      ∀ r ∈ rows, schedRowOk cfg emps r := by
  intro bl
  induction bl with
  | nil =>
    intro sid s rows sid2 s1 hbl h r hr
    unfold genBuckets at h
    rw [pureG_eq_some] at h
    have : rows = [] := congrArg Prod.fst (congrArg Prod.fst h)
    subst this
    simp at hr
  | cons bp rest ih =>
    obtain ⟨bucket, pct⟩ := bp
    intro sid s rows sid2 s1 hbl h r hr
    unfold genBuckets at h
    simp only [bindG_eq_some, pureG_eq_some] at h
    obtain ⟨⟨rows1, sidm⟩, s3, h1, ⟨rows2, sidn⟩, s4, h2, hp⟩ := h
    have : rows = rows1 ++ rows2 :=
      congrArg Prod.fst (congrArg Prod.fst hp)
    subst this
    rcases List.mem_append.1 hr with hmem | hmem
    · exact genBucket_ok hdept
        (hbl ⟨bucket, pct⟩ (List.mem_cons_self _ _)) h1 r hmem
    · exact ih sidm (fun q hq => hbl q (List.mem_cons_of_mem _ hq)) h2 r hmem

theorem genOrg_ok {cfg : Config} {emps : List Employee} {day : Nat}
    {org_path : String} {sid : Nat} {s : RngState} {rows : List ShiftRow}
    {sid2 : Nat} {s1 : RngState}
    (h : genOrg cfg emps day org_path sid s = some ((rows, sid2), s1)) :
    ∀ r ∈ rows, schedRowOk cfg emps r := by
  unfold genOrg at h
  simp only [bindG_eq_some] at h
  obtain ⟨z, s2, hz, hb⟩ := h
  refine genBuckets_ok rfl _ sid ?_ hb
  intro bp hbp
  simp only [List.mem_cons, List.not_mem_nil, or_false] at hbp
  rcases hbp with rfl | rfl | rfl
  · exact Or.inl rfl
  · exact Or.inr (Or.inl rfl)
  · exact Or.inr (Or.inr rfl)

theorem genOrgsSched_ok {cfg : Config} {emps : List Employee} {day : Nat} :
    ∀ (orgs : List String) (sid : Nat) {s : RngState}
      {rows : List ShiftRow} {sid2 : Nat} {s1 : RngState},
      genOrgsSched cfg emps day orgs sid s = some ((rows, sid2), s1) →
      ∀ r ∈ rows, schedRowOk cfg emps r := by
  intro orgs
  induction orgs with
  | nil =>
    intro sid s rows sid2 s1 h r hr
    unfold genOrgsSched at h
    rw [pureG_eq_some] at h
    have : rows = [] := congrArg Prod.fst (congrArg Prod.fst h)
    subst this
    simp at hr
  | cons org rest ih =>
    intro sid s rows sid2 s1 h r hr
    unfold genOrgsSched at h
    simp only [bindG_eq_some, pureG_eq_some] at h
    obtain ⟨⟨rows1, sidm⟩, s3, h1, ⟨rows2, sidn⟩, s4, h2, hp⟩ := h
    have : rows = rows1 ++ rows2 :=
      congrArg Prod.fst (congrArg Prod.fst hp)
    subst this
    rcases List.mem_append.1 hr with hmem | hmem
    · exact genOrg_ok h1 r hmem
    · exact ih sidm h2 r hmem

theorem genDaysAux_ok {cfg : Config} {emps : List Employee}
    {start_date : Nat} :
    ∀ (ds : List Nat) (sid : Nat) {s : RngState} {rows : List ShiftRow}
      {sid2 : Nat} {s1 : RngState},
      genDaysAux cfg emps start_date ds sid s = some ((rows, sid2), s1) →
      ∀ r ∈ rows, schedRowOk cfg emps r := by
  intro ds
  induction ds with
  | nil =>
    intro sid s rows sid2 s1 h r hr
    unfold genDaysAux at h
    rw [pureG_eq_some] at h
    have : rows = [] := congrArg Prod.fst (congrArg Prod.fst h)
    subst this
    simp at hr
  | cons d rest ih =>
    intro sid s rows sid2 s1 h r hr
    unfold genDaysAux at h
    simp only [bindG_eq_some, pureG_eq_some] at h
    obtain ⟨⟨rows1, sidm⟩, s3, h1, ⟨rows2, sidn⟩, s4, h2, hp⟩ := h
    have : rows = rows1 ++ rows2 :=
      congrArg Prod.fst (congrArg Prod.fst hp)
    subst this
    rcases List.mem_append.1 hr with hmem | hmem
    · exact genOrgsSched_ok cfg.orgs sid h1 r hmem
    · exact ih sidm h2 r hmem

theorem generate_schedule_rows_ok {cfg : Config} {emps : List Employee}
    {start_date : Nat} {s : RngState} {rows : List ShiftRow}
    {s1 : RngState}
    (h : generate_schedule cfg emps start_date s = some (rows, s1)) :
    ∀ r ∈ rows, schedRowOk cfg emps r := by
  unfold generate_schedule at h
  simp only [bindG_eq_some, pureG_eq_some] at h
  obtain ⟨⟨rows0, sid0⟩, s2, h0, hp⟩ := h
  have : rows = rows0 := congrArg Prod.fst hp
  subst this
  exact genDaysAux_ok _ _ h0

theorem le_maxI_left (a b : ℤ) : a ≤ maxI a b := by
  unfold maxI
  split
  · assumption
  · exact le_refl a

theorem lookupHome_spec {employees : List Employee} {eid : Option String}
    {s : RngState} {home : String} {s1 : RngState}
    (h : lookupHome employees eid s = some (home, s1)) :
    ∃ eid2 e, eid = some eid2 ∧
      employees.find? (fun x => x.employee_id == eid2) = some e ∧
      home = e.home_org_path := by
  cases eid with
  | none =>
    exact absurd (show (failG : Gen String) s = some (home, s1) from h)
      failG_eq_some
  | some eid2 =>
    have h2 : (match employees.find?
        (fun x : Employee => x.employee_id == eid2) with
      | none => (failG : Gen String)
      | some e => pure e.home_org_path) s = some (home, s1) := h
    cases hfind : employees.find? (fun x => x.employee_id == eid2) with
    | none =>
      rw [hfind] at h2
      exact absurd h2 failG_eq_some
    | some e =>
      rw [hfind] at h2
      rw [pureG_eq_some] at h2
      have : home = e.home_org_path := congrArg Prod.fst h2
      exact ⟨eid2, e, rfl, hfind, this⟩

theorem tcFilledRows_length {employees : List Employee} :
    ∀ (shifts : List ShiftRow) (tc : Nat) {s : RngState}
      {rows : List TimecardRow} {s1 : RngState},
      tcFilledRows employees shifts tc s = some (rows, s1) →
      rows.length = shifts.length := by
  intro shifts
  induction shifts with
  | nil =>
    intro tc s rows s1 h
    unfold tcFilledRows at h
    rw [pureG_eq_some] at h
    have : rows = [] := congrArg Prod.fst h
    subst this
    rfl
  | cons sh rest ih =>
    intro tc s rows s1 h
    unfold tcFilledRows at h
    simp only [bindG_eq_some, pureG_eq_some] at h
    obtain ⟨lateQ, s2, hlate, earlyQ, s3, hearly, paycode, s4, hpc, home,
      s5, hhome, rest2, s6, hrest, hp⟩ := h
    have : rows = _ :: rest2 := congrArg Prod.fst hp
    subst this
    simp [ih (tc + 1) hrest]

theorem tcFilledRows_get {employees : List Employee} :
    ∀ (shifts : List ShiftRow) (tc : Nat) {s : RngState}
      {rows : List TimecardRow} {s1 : RngState},
      tcFilledRows employees shifts tc s = some (rows, s1) →
      ∀ i (hi : i < rows.length) (hsh : i < shifts.length),
        (rows.get ⟨i, hi⟩).scheduled_shift_id =
          some ((shifts.get ⟨i, hsh⟩).shift_id) ∧
        (shifts.get ⟨i, hsh⟩).shift_start - 15 ≤
          (rows.get ⟨i, hi⟩).clock_in := by
  intro shifts
  induction shifts with
  | nil =>
    intro tc s rows s1 h i hi hsh
    simp at hsh
  | cons sh rest ih =>
    intro tc s rows s1 h i hi hsh
    unfold tcFilledRows at h
    simp only [bindG_eq_some, pureG_eq_some] at h
    obtain ⟨lateQ, s2, hlate, earlyQ, s3, hearly, paycode, s4, hpc, home,
      s5, hhome, rest2, s6, hrest, hp⟩ := h
    have hrows : rows = _ :: rest2 := congrArg Prod.fst hp
    subst hrows
    cases i with
    | zero =>
      constructor
      · rfl
      · show sh.shift_start - 15 ≤ sh.shift_start + maxI (-15)
          (pyInt lateQ)
        have := le_maxI_left (-15) (pyInt lateQ)
        omega
    | succ j =>
      have hj : j < rest2.length := by simpa using hi
      have hj2 : j < rest.length := by simpa using hsh
      exact ih (tc + 1) hrest j hj hj2

theorem tcFilledRows_mem {employees : List Employee} :
    ∀ (shifts : List ShiftRow) (tc : Nat) {s : RngState}
      {rows : List TimecardRow} {s1 : RngState},
      tcFilledRows employees shifts tc s = some (rows, s1) →
      ∀ r ∈ rows,
        (0 : Q) ≤ r.worked_hours ∧
        ∃ sh, sh ∈ shifts ∧ ∃ eid e, sh.employee_id = some eid ∧
          employees.find? (fun x => x.employee_id == eid) = some e ∧
          r.org_path = sh.org_path ∧ r.home_org_path = e.home_org_path := by
  intro shifts
  induction shifts with
  | nil =>
    intro tc s rows s1 h r hr
    unfold tcFilledRows at h
    rw [pureG_eq_some] at h
    have : rows = [] := congrArg Prod.fst h
    subst this
    simp at hr
  | cons sh rest ih =>
    intro tc s rows s1 h r hr
    unfold tcFilledRows at h
    simp only [bindG_eq_some, pureG_eq_some] at h
    obtain ⟨lateQ, s2, hlate, earlyQ, s3, hearly, paycode, s4, hpc, home,
      s5, hhome, rest2, s6, hrest, hp⟩ := h
    have hrows : rows = _ :: rest2 := congrArg Prod.fst hp
    subst hrows
    rcases List.mem_cons.1 hr with rfl | hmem
    · obtain ⟨eid2, e, heid, hfind, hhomeeq⟩ := lookupHome_spec hhome
      constructor
      · exact round2_nonneg (Q.qmax_nonneg _)
      · exact ⟨sh, List.mem_cons_self sh rest, eid2, e, heid, hfind,
          rfl, hhomeeq⟩
    · obtain ⟨hw, sh2, hsh2, rest3⟩ := ih (tc + 1) hrest r hmem
      exact ⟨hw, sh2, List.mem_cons_of_mem sh hsh2, rest3⟩

theorem tcExceptionRows_length {employees : List Employee}
    {sa : List ShiftRow} :
    ∀ (k tc : Nat) {s : RngState} {rows : List TimecardRow}
      {s1 : RngState},
      tcExceptionRows employees sa k tc s = some (rows, s1) →
      rows.length = k := by
  intro k
  induction k with
  | zero =>
    intro tc s rows s1 h
    unfold tcExceptionRows at h
    rw [pureG_eq_some] at h
    have : rows = [] := congrArg Prod.fst h
    subst this
    rfl
  | succ m ih =>
    intro tc s rows s1 h
    unfold tcExceptionRows at h
    simp only [bindG_eq_some, pureG_eq_some] at h
    obtain ⟨e, s2, he, srow, s3, hsrow, sh, s4, hsh, dur, s5, hdur, pc,
      s6, hpc, rest, s7, hrest, hp⟩ := h
    have : rows = _ :: rest := congrArg Prod.fst hp
    subst this
    simp [ih (tc + 1) hrest]

theorem tcExceptionRows_mem {employees : List Employee}
    {sa : List ShiftRow} :
    ∀ (k tc : Nat) {s : RngState} {rows : List TimecardRow}
      {s1 : RngState},
      tcExceptionRows employees sa k tc s = some (rows, s1) →
      ∀ r ∈ rows,
        (0 : Q) ≤ r.worked_hours ∧ r.scheduled_shift_id = none ∧
        ∃ e, e ∈ employees ∧ r.org_path = e.org_path ∧
          r.home_org_path = e.home_org_path := by
  intro k
  induction k with
  | zero =>
    intro tc s rows s1 h r hr
    unfold tcExceptionRows at h
    rw [pureG_eq_some] at h
    have : rows = [] := congrArg Prod.fst h
    subst this
    simp at hr
  | succ m ih =>
    intro tc s rows s1 h r hr
    unfold tcExceptionRows at h
    simp only [bindG_eq_some, pureG_eq_some] at h
    obtain ⟨e, s2, he, srow, s3, hsrow, sh, s4, hsh, dur, s5, hdur, pc,
      s6, hpc, rest, s7, hrest, hp⟩ := h
    have : rows = _ :: rest := congrArg Prod.fst hp
    subst this
    rcases List.mem_cons.1 hr with rfl | hmem
    · refine ⟨?_, rfl, e, npSample1_mem he, rfl, rfl⟩
      apply round2_nonneg
      apply Q.minutes_hours_nonneg
      omega
    · exact ih (tc + 1) hrest r hmem

theorem generate_timecards_parts {cfg : Config}
    {employees : List Employee} {schedule : List ShiftRow} {s : RngState}
    {rows : List TimecardRow} {s1 : RngState}
    (h : generate_timecards cfg employees schedule s = some (rows, s1)) :
    ∃ rows1 rows2 s2 s3,
      rows = rows1 ++ rows2 ∧
      tcFilledRows employees
        (schedule.filter (fun r => r.is_open_shift == false)) 900000 s =
        some (rows1, s2) ∧
      tcExceptionRows employees
        (schedule.filter (fun r => r.is_open_shift == false))
        ((pyInt (((schedule.filter
          (fun r => r.is_open_shift == false)).length : Q) *
          (2 / 100))).toNat)
        (900000 +
          (schedule.filter (fun r => r.is_open_shift == false)).length)
        s2 = some (rows2, s3) := by
  unfold generate_timecards at h
  simp only [bindG_eq_some, pureG_eq_some] at h
  obtain ⟨rows1, s2, h1, rows2, s3, h2, hp⟩ := h
  have : rows = rows1 ++ rows2 := congrArg Prod.fst hp
  subst this
  exact ⟨rows1, rows2, s2, s3, rfl, h1, h2⟩

theorem find?_eq_of_unique {emps : List Employee}
    (huniq : ∀ e1 ∈ emps, ∀ e2 ∈ emps,
      e1.employee_id = e2.employee_id → e1 = e2)
    {e : Employee} (he : e ∈ emps) :
    emps.find? (fun x => x.employee_id == e.employee_id) = some e := by
  cases hfind : emps.find? (fun x => x.employee_id == e.employee_id) with
  | none =>
    rw [List.find?_eq_none] at hfind
    exact absurd (by simp : (e.employee_id == e.employee_id) = true)
      (hfind e he)
  | some e2 =>
    have h1 := List.find?_some hfind
    have h2 := List.mem_of_find?_eq_some hfind
    have h3 : e2.employee_id = e.employee_id := by simpa using h1
    rw [huniq e2 h2 e he h3]

theorem pyInt_two_percent (n : Nat) :
    (pyInt ((n : Q) * (2 / 100))).toNat = n * 2 / 100 := by
  have h1 : ((n : Q) * (2 / 100)).num = (n : ℤ) * 2 := rfl
  have h2 : (((n : Q) * (2 / 100)).den : ℤ) = 100 := rfl
  have hpos : (0 : Q) ≤ (n : Q) * (2 / 100) := by
    rw [Q.le_iff_num, h1]
    positivity
  rw [pyInt, if_pos hpos]
  unfold Q.floor
  rw [h1, h2]
  omega

theorem shift_bucket_iffs (h : Nat) :
    (shift_bucket_from_start h = "DAY" ↔ (6 ≤ h ∧ h < 14)) ∧
    (shift_bucket_from_start h = "EVENING" ↔ (14 ≤ h ∧ h < 22)) ∧
    (shift_bucket_from_start h = "NIGHT" ↔
      (¬(6 ≤ h ∧ h < 14) ∧ ¬(14 ≤ h ∧ h < 22))) := by
  by_cases h1 : 6 ≤ h ∧ h < 14
  · rw [shift_bucket_from_start, if_pos h1]
    have h2 : ¬(14 ≤ h ∧ h < 22) := by omega
    refine ⟨by simp [h1], ?_, ?_⟩
    · exact ⟨fun habs => absurd habs (by decide), fun hc => absurd hc h2⟩
    · exact ⟨fun habs => absurd habs (by decide),
        fun hc => absurd h1 hc.1⟩
  · by_cases h2 : 14 ≤ h ∧ h < 22
    · rw [shift_bucket_from_start, if_neg h1, if_pos h2]
      refine ⟨?_, by simp [h2], ?_⟩
      · exact ⟨fun habs => absurd habs (by decide), fun hc => absurd hc h1⟩
      · exact ⟨fun habs => absurd habs (by decide),
          fun hc => absurd h2 hc.2⟩
    · rw [shift_bucket_from_start, if_neg h1, if_neg h2]
      refine ⟨?_, ?_, by simp [h1, h2]⟩
      · exact ⟨fun habs => absurd habs (by decide), fun hc => absurd hc h1⟩
      · exact ⟨fun habs => absurd habs (by decide), fun hc => absurd hc h2⟩

theorem generate_timecards_no_filled {cfg : Config}
    {emps : List Employee} {schedule : List ShiftRow} {s : RngState}
    (hfilter : schedule.filter (fun r => r.is_open_shift == false) = []) :
    generate_timecards cfg emps schedule s = some ([], s) := by
  unfold generate_timecards
  simp only [hfilter]
  rfl

set_option maxRecDepth 100000 in
/-- Claim C1, counterexample: with the same seeding map and the same
configuration, two runs of the entry point on different current UTC dates
produce schedule tables that differ already in their date column, so the
output tables are not byte-identical. -/
theorem C1_counterexample :
    (runMain seedW cfgX 737001).map
      (fun p => p.2.1.map ShiftRow.schedule_date) ≠
    (runMain seedW cfgX 737002).map
      (fun p => p.2.1.map ShiftRow.schedule_date) := by
  decide

/-- Claim C1, amended: two runs of the entry point with the same seeding
(the states derived from the configured seed), the same configuration,
and the same current UTC date produce identical output tables. -/
theorem C1_determinism (seedStreams : Nat → RngState) (cfg : Config)
    (today : Nat)
    (o1 o2 : Option (List Employee × List ShiftRow × List TimecardRow))
    (h1 : o1 = runMain seedStreams cfg today)
    (h2 : o2 = runMain seedStreams cfg today) : o1 = o2 :=
  h1.trans h2.symm

theorem C1_witness :
    runMain seedW cfgX 737001 = runMain seedW cfgX 737001 :=
  C1_determinism seedW cfgX 737001 _ _ rfl rfl

/-- Claim C2: in every schedule produced by generate_schedule, an open
shift carries no employee id, and a filled shift carries the employee id
of some row of the employee table that was passed in. -/
theorem C2_open_shift_exclusivity (cfg : Config) (emps : List Employee)
    (start_date : Nat) (s : RngState) (rows : List ShiftRow)
    (s1 : RngState)
    (h : generate_schedule cfg emps start_date s = some (rows, s1)) :
    ∀ r ∈ rows,
      (r.is_open_shift = true → r.employee_id = none) ∧
      (r.is_open_shift = false →
        ∃ e, e ∈ emps ∧ r.employee_id = some e.employee_id) := by
  intro r hr
  obtain ⟨h1, h2, _, _, _⟩ := generate_schedule_rows_ok h r hr
  refine ⟨h1, fun ho => ?_⟩
  obtain ⟨e, he, hid, _, _⟩ := h2 ho
  exact ⟨e, he, hid⟩

theorem C2_witness :
    0 < (((generate_schedule cfgW empsW 736999 rngW).get
      (by decide)).1).length ∧
    ∀ r ∈ ((generate_schedule cfgW empsW 736999 rngW).get (by decide)).1,
      (r.is_open_shift = true → r.employee_id = none) ∧
      (r.is_open_shift = false →
        ∃ e, e ∈ empsW ∧ r.employee_id = some e.employee_id) :=
  ⟨by decide, C2_open_shift_exclusivity cfgW empsW 736999 rngW _ _
    (Option.some_get (by decide)).symm⟩

/-- Claim C3: every schedule row's bucket equals shift_bucket_from_start
of the start hour of its shift_start, and accordingly is DAY exactly on
[6,14), EVENING exactly on [14,22), and NIGHT otherwise. -/
theorem C3_bucket_correctness (cfg : Config) (emps : List Employee)
    (start_date : Nat) (s : RngState) (rows : List ShiftRow)
    (s1 : RngState)
    (h : generate_schedule cfg emps start_date s = some (rows, s1)) :
    ∀ r ∈ rows,
      r.shift_bucket =
        shift_bucket_from_start (startHourOf r.shift_start) ∧
      (r.shift_bucket = "DAY" ↔
        (6 ≤ startHourOf r.shift_start ∧ startHourOf r.shift_start < 14)) ∧
      (r.shift_bucket = "EVENING" ↔
        (14 ≤ startHourOf r.shift_start ∧
          startHourOf r.shift_start < 22)) ∧
      (r.shift_bucket = "NIGHT" ↔
        (¬(6 ≤ startHourOf r.shift_start ∧
            startHourOf r.shift_start < 14) ∧
         ¬(14 ≤ startHourOf r.shift_start ∧
            startHourOf r.shift_start < 22))) := by
  intro r hr
  obtain ⟨_, _, hb, _, _⟩ := generate_schedule_rows_ok h r hr
  obtain ⟨hday, hevening, hnight⟩ :=
    shift_bucket_iffs (startHourOf r.shift_start)
  refine ⟨hb, ?_, ?_, ?_⟩
  · rw [hb]
    exact hday
  · rw [hb]
    exact hevening
  · rw [hb]
    exact hnight

theorem C3_witness :
    0 < (((generate_schedule cfgW empsW 736999 rngW).get
      (by decide)).1).length ∧
    ∀ r ∈ ((generate_schedule cfgW empsW 736999 rngW).get (by decide)).1,
      r.shift_bucket =
        shift_bucket_from_start (startHourOf r.shift_start) ∧
      (r.shift_bucket = "DAY" ↔
        (6 ≤ startHourOf r.shift_start ∧ startHourOf r.shift_start < 14)) ∧
      (r.shift_bucket = "EVENING" ↔
        (14 ≤ startHourOf r.shift_start ∧
          startHourOf r.shift_start < 22)) ∧
      (r.shift_bucket = "NIGHT" ↔
        (¬(6 ≤ startHourOf r.shift_start ∧
            startHourOf r.shift_start < 14) ∧
         ¬(14 ≤ startHourOf r.shift_start ∧
            startHourOf r.shift_start < 22))) :=
  ⟨by decide, C3_bucket_correctness cfgW empsW 736999 rngW _ _
    (Option.some_get (by decide)).symm⟩

/-- Claim C4, counterexample: for a department present in the catalog
with an empty job list, open-shift generation does fail (random.choice on
the empty list raises IndexError, modelled as none), contradicting the
claim that it never fails and falls back to GEN. -/
theorem C4_counterexample :
    (generate_schedule cfgE [empE] 736999 rng9).isNone = true := by
  decide

/-- Claim C4, amended: the job code of every open shift is drawn
uniformly from cfg.jobs.get(dept, [GEN default]), i.e. from the
department catalog list when the department is present (so from the
one-element GEN default only when the department is absent); when the
department is present with an empty list and an open shift is generated,
generate_schedule fails instead of falling back. -/
theorem C4_open_shift_job_codes (cfg : Config) (emps : List Employee)
    (start_date : Nat) (s : RngState) (rows : List ShiftRow)
    (s1 : RngState)
    (h : generate_schedule cfg emps start_date s = some (rows, s1)) :
    ∀ r ∈ rows, r.is_open_shift = true →
      r.job_code ∈
        (((cfg.jobs.lookup (department_of r.org_path)).getD
          [openShiftDefaultJob]).map Job.job_code) := by
  intro r hr
  exact (generate_schedule_rows_ok h r hr).2.2.2.2

theorem C4_witness :
    (((generate_schedule cfgEok [empE] 736999 rng9).get
      (by decide)).1).any (fun r => r.is_open_shift) = true ∧
    ∀ r ∈ ((generate_schedule cfgEok [empE] 736999 rng9).get
        (by decide)).1,
      r.is_open_shift = true →
      r.job_code ∈
        (((cfgEok.jobs.lookup (department_of r.org_path)).getD
          [openShiftDefaultJob]).map Job.job_code) :=
  ⟨by decide, C4_open_shift_job_codes cfgEok [empE] 736999 rng9 _ _
    (Option.some_get (by decide)).symm⟩

/-- Claim C5: the number of timecard rows equals the filled-shift count
of the input schedule plus the floor of two percent of that count, and in
particular is at least the filled-shift count. -/
theorem C5_timecard_count (cfg : Config) (emps : List Employee)
    (schedule : List ShiftRow) (s : RngState) (rows : List TimecardRow)
    (s1 : RngState)
    (h : generate_timecards cfg emps schedule s = some (rows, s1)) :
    rows.length =
      (schedule.filter (fun r => r.is_open_shift == false)).length +
        (schedule.filter (fun r => r.is_open_shift == false)).length *
          2 / 100 ∧
    (schedule.filter (fun r => r.is_open_shift == false)).length ≤
      rows.length := by
  obtain ⟨rows1, rows2, s2, s3, hconcat, h1, h2⟩ :=
    generate_timecards_parts h
  subst hconcat
  rw [List.length_append, tcFilledRows_length _ _ h1,
    tcExceptionRows_length _ _ h2, pyInt_two_percent]
  omega

theorem C5_witness :
    (((generate_timecards cfgE [empE] [shiftW] rngW).get
        (by decide)).1).length =
      (([shiftW].filter (fun r => r.is_open_shift == false)).length +
        ([shiftW].filter (fun r => r.is_open_shift == false)).length *
          2 / 100) ∧
    (([shiftW].filter (fun r => r.is_open_shift == false)).length ≤
      (((generate_timecards cfgE [empE] [shiftW] rngW).get
        (by decide)).1).length) :=
  C5_timecard_count cfgE [empE] [shiftW] rngW _ _
    (Option.some_get (by decide)).symm

/-- Claim C6: the i-th timecard row produced for the i-th filled shift of
the input schedule references that shift's id, and its clock_in is no
earlier than the scheduled start of that shift minus 15 minutes. -/
theorem C6_clock_in_bound (cfg : Config) (emps : List Employee)
    (schedule : List ShiftRow) (s : RngState) (rows : List TimecardRow)
    (s1 : RngState)
    (h : generate_timecards cfg emps schedule s = some (rows, s1)) :
    ∀ i (hi : i <
      (schedule.filter (fun r => r.is_open_shift == false)).length),
      ∃ hj : i < rows.length,
        (rows.get ⟨i, hj⟩).scheduled_shift_id =
          some (((schedule.filter
            (fun r => r.is_open_shift == false)).get ⟨i, hi⟩).shift_id) ∧
        ((schedule.filter
          (fun r => r.is_open_shift == false)).get ⟨i, hi⟩).shift_start -
            15 ≤ (rows.get ⟨i, hj⟩).clock_in := by
  obtain ⟨rows1, rows2, s2, s3, hconcat, h1, h2⟩ :=
    generate_timecards_parts h
  subst hconcat
  intro i hi
  have hlen1 : rows1.length =
      (schedule.filter (fun r => r.is_open_shift == false)).length :=
    tcFilledRows_length _ _ h1
  have hj1 : i < rows1.length := by omega
  have hj : i < (rows1 ++ rows2).length := by
    rw [List.length_append]
    omega
  refine ⟨hj, ?_⟩
  have hget : (rows1 ++ rows2).get ⟨i, hj⟩ = rows1.get ⟨i, hj1⟩ :=
    List.get_append i hj1
  rw [hget]
  exact tcFilledRows_get _ _ h1 i hj1 hi

theorem C6_witness :
    0 < (([shiftW]).filter (fun r => r.is_open_shift == false)).length ∧
    ∀ i (hi : i <
      (([shiftW]).filter (fun r => r.is_open_shift == false)).length),
      ∃ hj : i < (((generate_timecards cfgE [empE] [shiftW] rngW).get
          (by decide)).1).length,
        ((((generate_timecards cfgE [empE] [shiftW] rngW).get
            (by decide)).1).get ⟨i, hj⟩).scheduled_shift_id =
          some (((([shiftW]).filter
            (fun r => r.is_open_shift == false)).get ⟨i, hi⟩).shift_id) ∧
        ((([shiftW]).filter
          (fun r => r.is_open_shift == false)).get ⟨i, hi⟩).shift_start -
            15 ≤ ((((generate_timecards cfgE [empE] [shiftW] rngW).get
              (by decide)).1).get ⟨i, hj⟩).clock_in :=
  ⟨by decide, C6_clock_in_bound cfgE [empE] [shiftW] rngW _ _
    (Option.some_get (by decide)).symm⟩

/-- Claim C7: generate_employees returns exactly n employees per org path
in the config org-list order (its org_path column is the concatenation
of n copies of each org path in order), and the numeric employee id of
the k-th generated employee is 100000 + k, so the ids are strictly
increasing from 100000. -/
theorem C7_employee_roster (cfg : Config) (n : Nat) (s : RngState)
    (emps : List Employee) (s1 : RngState)
    (h : generate_employees cfg n s = some (emps, s1)) :
    emps.length = cfg.orgs.length * n ∧
    emps.map Employee.org_path =
      (cfg.orgs.map (fun o => List.replicate n o)).flatten ∧
    ∀ k (hk : k < emps.length),
      (emps.get ⟨k, hk⟩).employee_number = 100000 + k := by
  obtain ⟨h1, h2, h3, _⟩ := generate_employees_spec h
  exact ⟨h1, h2, fun k hk => (h3 k hk).1⟩

theorem C7_witness :
    (((generate_employees cfgW 2 rngW).get (by decide)).1).length =
      cfgW.orgs.length * 2 ∧
    (((generate_employees cfgW 2 rngW).get (by decide)).1).map
        Employee.org_path =
      (cfgW.orgs.map (fun o => List.replicate 2 o)).flatten ∧
    ∀ k (hk : k <
        (((generate_employees cfgW 2 rngW).get (by decide)).1).length),
      ((((generate_employees cfgW 2 rngW).get (by decide)).1).get
        ⟨k, hk⟩).employee_number = 100000 + k :=
  C7_employee_roster cfgW 2 rngW _ _ (Option.some_get (by decide)).symm

/-- Claim C8: every scheduled_hours value of a generated schedule and
every worked_hours value of a generated timecard table (filled-shift and
exception entries alike) is nonnegative. -/
theorem C8_nonnegativity (cfg cfg2 : Config) (emps emps2 : List Employee)
    (start_date : Nat) (s : RngState) (srows : List ShiftRow)
    (s1 : RngState) (schedule : List ShiftRow) (s2 : RngState)
    (trows : List TimecardRow) (s3 : RngState)
    (hs : generate_schedule cfg emps start_date s = some (srows, s1))
    (ht : generate_timecards cfg2 emps2 schedule s2 = some (trows, s3)) :
    (∀ r ∈ srows, (0 : Q) ≤ r.scheduled_hours) ∧
    (∀ t ∈ trows, (0 : Q) ≤ t.worked_hours) := by
  constructor
  · intro r hr
    exact (generate_schedule_rows_ok hs r hr).2.2.2.1
  · intro t htm
    obtain ⟨rows1, rows2, s4, s5, hconcat, h1, h2⟩ :=
      generate_timecards_parts ht
    subst hconcat
    rcases List.mem_append.1 htm with hm | hm
    · exact (tcFilledRows_mem _ _ h1 t hm).1
    · exact (tcExceptionRows_mem _ _ h2 t hm).1

theorem C8_witness :
    (∀ r ∈ ((generate_schedule cfgW empsW 736999 rngW).get
        (by decide)).1, (0 : Q) ≤ r.scheduled_hours) ∧
    (∀ t ∈ ((generate_timecards cfgE [empE] [shiftW] rngW).get
        (by decide)).1, (0 : Q) ≤ t.worked_hours) :=
  C8_nonnegativity cfgW cfgE empsW [empE] 736999 rngW _ _ [shiftW] rngW
    _ _ (Option.some_get (by decide)).symm
    (Option.some_get (by decide)).symm

/-- Claim C9: along the generation pipeline (roster from
generate_employees, schedule from generate_schedule over that roster,
timecards from generate_timecards over both), every timecard row's worked
org_path equals the employee home_org_path; the two columns never
differ. -/
theorem C9_org_equals_home (cfg : Config) (n : Nat) (s0 : RngState)
    (emps : List Employee) (s1 : RngState) (start_date : Nat)
    (s2 : RngState) (srows : List ShiftRow) (s3 : RngState)
    (s4 : RngState) (trows : List TimecardRow) (s5 : RngState)
    (hemp : generate_employees cfg n s0 = some (emps, s1))
    (hsch : generate_schedule cfg emps start_date s2 = some (srows, s3))
    (htc : generate_timecards cfg emps srows s4 = some (trows, s5)) :
    ∀ t ∈ trows, t.org_path = t.home_org_path := by
  have hhome : ∀ e ∈ emps, e.home_org_path = e.org_path :=
    (generate_employees_spec hemp).2.2.2
  have huniq := generate_employees_unique_ids hemp
  obtain ⟨rows1, rows2, s6, s7, hconcat, h1, h2⟩ :=
    generate_timecards_parts htc
  subst hconcat
  intro t htm
  rcases List.mem_append.1 htm with hm | hm
  · obtain ⟨_, sh, hsh, eid, e, heid, hfind, horg, hhome2⟩ :=
      tcFilledRows_mem _ _ h1 t hm
    have hshmem : sh ∈ srows := (List.mem_filter.1 hsh).1
    have hopen : sh.is_open_shift = false := by
      have := (List.mem_filter.1 hsh).2
      simpa using this
    obtain ⟨_, hfilled, _, _, _⟩ := generate_schedule_rows_ok hsch sh hshmem
    obtain ⟨e2, he2, hid2, horg2, _⟩ := hfilled hopen
    rw [heid] at hid2
    have heq : eid = e2.employee_id := Option.some_inj.1 hid2
    rw [heq] at hfind
    rw [find?_eq_of_unique huniq he2] at hfind
    have he3 : e2 = e := Option.some_inj.1 hfind
    rw [horg, hhome2, ← he3, hhome e2 he2, horg2]
  · obtain ⟨_, _, e, he, horg, hhome2⟩ := tcExceptionRows_mem _ _ h2 t hm
    rw [horg, hhome2, hhome e he]

theorem C9_witness :
    0 < pipeTc.1.length ∧
    ∀ t ∈ pipeTc.1, t.org_path = t.home_org_path :=
  ⟨by decide, C9_org_equals_home cfgX 1 rngW pipeEmps.1 pipeEmps.2 736999
    pipeEmps.2 pipeSched.1 pipeSched.2 pipeSched.2 pipeTc.1 pipeTc.2
    (Option.some_get (by decide)).symm
    (Option.some_get (by decide)).symm
    (Option.some_get (by decide)).symm⟩

/-- Claim C10: when the input schedule has no filled shift,
generate_timecards returns the empty table without failing and without
consuming any draw: the exception count is the floor of two percent of
zero, so no sampling from the empty filled-shift set or from the roster
is attempted. -/
theorem C10_empty_on_no_filled (cfg : Config) (emps : List Employee)
    (schedule : List ShiftRow) (s : RngState)
    (hfilter : schedule.filter (fun r => r.is_open_shift == false) = []) :
    generate_timecards cfg emps schedule s = some ([], s) :=
  generate_timecards_no_filled hfilter

theorem C10_witness :
    generate_timecards cfgE [empE] [shiftOpenW] rngW = some ([], rngW) :=
  C10_empty_on_no_filled cfgE [empE] [shiftOpenW] rngW (by decide)

end SDE
